import Mathlib

/-!
Shallow embedding of the LokiBot C2 analysis server's binary codec
(`src/encoding.rs`, `src/packets.rs`).

Conventions:
* A byte buffer is a `List Nat` whose elements are byte values.
* Rust strings produced by the lossy `BodyReader::read_string` are modelled as
  lists of Unicode scalar values (`List Nat` of code points).
* Rust `String` arguments of `Operation` are modelled as their UTF-8 byte
  sequences (`List Nat` of bytes); validity of that encoding is the type
  invariant of Rust `String` and appears as an explicit predicate.
* The `Cursor` of `BodyReader` is modelled as the pair (buffer, position);
  the `&mut &[u8]` readers of the command codec are modelled as functions
  consuming a prefix of a list and returning the remainder.
-/

/-- Little-endian bytes of a 16-bit value (`u16::to_le_bytes`). -/
def toLE16 (n : Nat) : List Nat := [n % 256, n / 256 % 256]

/-- Little-endian bytes of a 32-bit value (`u32::to_le_bytes`). -/
def toLE32 (n : Nat) : List Nat :=
  [n % 256, n / 256 % 256, n / 65536 % 256, n / 16777216 % 256]

/-- `u16::from_le_bytes` on a two-byte list. -/
def u16OfLE (l : List Nat) : Nat :=
  match l with
  | [a, b] => a + 256 * b
  | _ => 0

/-- `u32::from_le_bytes` on a four-byte list. -/
def u32OfLE (l : List Nat) : Nat :=
  match l with
  | [a, b, c, d] => a + 256 * b + 65536 * c + 16777216 * d
  | _ => 0

/-- `Cursor::read_exact` into an `n`-byte destination: on success it yields the
next `n` bytes and the advanced position; if fewer than `n` bytes remain it
fails and the cursor is placed at the end of the buffer — the specialized
`Cursor<T: AsRef<[u8]>>::read_exact` sets `self.pos` to the buffer length on
its only error condition, EOF. -/
def cursorReadExact (buf : List Nat) (pos n : Nat) : Option (List Nat) × Nat :=
  let remaining := buf.drop pos
  if n ≤ remaining.length then (some (remaining.take n), pos + n)
  else (none, buf.length)

/-- `BodyReader::read_bytes_exact::<N>`: `Option`-returning wrapper around the
cursor read, threading the new position. -/
def read_bytes_exact (n : Nat) (buf : List Nat) (pos : Nat) :
    Option (List Nat × Nat) :=
  match cursorReadExact buf pos n with
  | (some bs, p) => some (bs, p)
  | (none, _) => none

/-- `BodyReader::read_u16`. -/
def read_u16 (buf : List Nat) (pos : Nat) : Option (Nat × Nat) :=
  match read_bytes_exact 2 buf pos with
  | some (bs, p) => some (u16OfLE bs, p)
  | none => none

/-- `BodyReader::read_u32`. -/
def read_u32 (buf : List Nat) (pos : Nat) : Option (Nat × Nat) :=
  match read_bytes_exact 4 buf pos with
  | some (bs, p) => some (u32OfLE bs, p)
  | none => none

/-- `BodyReader::read_bool`: reads a `u16`; result is `word != 0`. -/
def read_bool (buf : List Nat) (pos : Nat) : Option (Bool × Nat) :=
  match read_u16 buf pos with
  | some (v, p) => some (decide (v ≠ 0), p)
  | none => none

/-- Is `c` a UTF-8 continuation byte (`0x80..=0xBF`)? -/
def isUtf8Cont (c : Nat) : Bool := 128 ≤ c && c ≤ 191

/-- Recursion core of lossy UTF-8 decoding. The fuel argument makes the
recursion structural; every step consumes at least one byte, so fuel equal to
the list length never runs out. -/
def utf8Go : Nat → List Nat → List Nat
  | 0, _ => []
  | _ + 1, [] => []
  | fuel + 1, b :: rest =>
    if b < 128 then b :: utf8Go fuel rest
    else if b < 194 then 65533 :: utf8Go fuel rest
    else if b < 224 then
      match rest with
      | c :: rest2 =>
        if isUtf8Cont c then ((b - 192) * 64 + (c - 128)) :: utf8Go fuel rest2
        else 65533 :: utf8Go fuel (c :: rest2)
      | [] => [65533]
    else if b < 240 then
      match rest with
      | c :: rest2 =>
        if (if b = 224 then 160 ≤ c && c ≤ 191
            else if b = 237 then 128 ≤ c && c ≤ 159
            else isUtf8Cont c) then
          match rest2 with
          | d :: rest3 =>
            if isUtf8Cont d then
              ((b - 224) * 4096 + (c - 128) * 64 + (d - 128)) :: utf8Go fuel rest3
            else 65533 :: utf8Go fuel (d :: rest3)
          | [] => [65533]
        else 65533 :: utf8Go fuel (c :: rest2)
      | [] => [65533]
    else if b < 245 then
      match rest with
      | c :: rest2 =>
        if (if b = 240 then 144 ≤ c && c ≤ 191
            else if b = 244 then 128 ≤ c && c ≤ 143
            else isUtf8Cont c) then
          match rest2 with
          | d :: rest3 =>
            if isUtf8Cont d then
              match rest3 with
              | e :: rest4 =>
                if isUtf8Cont e then
                  ((b - 240) * 262144 + (c - 128) * 4096 + (d - 128) * 64 + (e - 128))
                    :: utf8Go fuel rest4
                else 65533 :: utf8Go fuel (e :: rest4)
              | [] => [65533]
            else 65533 :: utf8Go fuel (d :: rest3)
          | [] => [65533]
        else 65533 :: utf8Go fuel (c :: rest2)
      | [] => [65533]
    else 65533 :: utf8Go fuel rest

/-- WHATWG UTF-8 decoding with U+FFFD replacement of malformed sequences,
as performed by `encoding_rs::UTF_8.decode`. Input bytes, output Unicode
scalar values. A byte that cannot continue the current sequence emits a
replacement character and is reprocessed; a truncated sequence at end of
input emits a single replacement character. -/
def utf8DecodeLossy (l : List Nat) : List Nat := utf8Go l.length l

/-- Recursion core of lossy UTF-16LE decoding, fuelled like `utf8Go`; every
step consumes at least one byte. -/
def utf16Go : Nat → List Nat → List Nat
  | 0, _ => []
  | _ + 1, [] => []
  | _ + 1, [_] => [65533]
  | fuel + 1, b0 :: b1 :: rest =>
    let u := b0 + 256 * b1
    if u < 55296 || 57343 < u then u :: utf16Go fuel rest
    else if u ≤ 56319 then
      match rest with
      | c0 :: c1 :: rest2 =>
        let v := c0 + 256 * c1
        if 56320 ≤ v && v ≤ 57343 then
          (65536 + (u - 55296) * 1024 + (v - 56320)) :: utf16Go fuel rest2
        else 65533 :: utf16Go fuel (c0 :: c1 :: rest2)
      | _ => [65533]
    else 65533 :: utf16Go fuel rest

/-- WHATWG UTF-16 little-endian decoding with U+FFFD replacement, as performed
by `encoding_rs::UTF_16LE.decode`: code units are byte pairs; an unpaired
surrogate or trailing lone byte becomes a replacement character; a high
surrogate followed by a non-low-surrogate unit emits a replacement character
and the following unit is reprocessed. -/
def utf16leDecodeLossy (l : List Nat) : List Nat := utf16Go l.length l

/-- `BodyReader::read_string`: a `u16` string-kind tag, a `u32` byte length,
then exactly that many bytes, decoded as UTF-8 when the kind is `0` and as
UTF-16LE otherwise. The byte read is a direct `cursor.read_exact`. -/
def read_string (buf : List Nat) (pos : Nat) : Option (List Nat × Nat) :=
  match read_u16 buf pos with
  | none => none
  | some (strType, p1) =>
    match read_u32 buf p1 with
    | none => none
    | some (strLen, p2) =>
      match cursorReadExact buf p2 strLen with
      | (some strBytes, p3) =>
        some ((if strType = 0 then utf8DecodeLossy strBytes
               else utf16leDecodeLossy strBytes), p3)
      | (none, _) => none

/-- `BodyReader::read_vec`: a `u32` byte length then exactly that many raw
bytes. -/
def read_vec (buf : List Nat) (pos : Nat) : Option (List Nat × Nat) :=
  match read_u32 buf pos with
  | none => none
  | some (len, p1) =>
    match cursorReadExact buf p1 len with
    | (some bytes, p2) => some (bytes, p2)
    | (none, _) => none

/-- `ProductType` (`packets.rs`): closed `u16` enumeration. -/
inductive ProductType where
  | VER_NT_WORKSTATION
  | VER_NT_DOMAIN_CONTROLLER
  | VER_NT_SERVER
deriving DecidableEq, Repr

/-- `num_enum::TryFromPrimitive` for `ProductType` (1, 2, 3). -/
def ProductType.tryFrom (n : Nat) : Option ProductType :=
  if n = 1 then some .VER_NT_WORKSTATION
  else if n = 2 then some .VER_NT_DOMAIN_CONTROLLER
  else if n = 3 then some .VER_NT_SERVER
  else none

/-- `PacketId` (`packets.rs`): `Beacon = 0x00280012`, `Information = 0x00270012`,
and the implicitly numbered `Unknown` variant, whose `repr(u32)` discriminant is
the successor of the previous variant, `0x00270013`. -/
inductive PacketId where
  | Beacon
  | Information
  | Unknown
deriving DecidableEq, Repr

/-- `num_enum::TryFromPrimitive` for `PacketId`: accepts the discriminants of
all three variants, including `Unknown`'s implicit `0x00270013`. -/
def PacketId.tryFrom (n : Nat) : Option PacketId :=
  if n = 0x00280012 then some .Beacon
  else if n = 0x00270012 then some .Information
  else if n = 0x00270013 then some .Unknown
  else none

/-- `PacketHeader` (`packets.rs`): the field layout shared by both packet
types. Strings are lists of Unicode scalar values. -/
structure PacketHeader where
  username : List Nat
  computer_name : List Nat
  domain_name : List Nat
  monitor_width : Nat
  monitor_height : Nat
  is_domain_admin : Bool
  is_local_admin : Bool
  is_amd_arch : Bool
  win_major_version : Nat
  win_minor_version : Nat
  win_product_type : ProductType
  unknown_data : Nat
deriving DecidableEq, Repr

/-- `PacketHeader::from_reader`: twelve sequential reads; any failure (or an
invalid product-type code) aborts with `None`. -/
def PacketHeader.from_reader (buf : List Nat) (pos : Nat) :
    Option (PacketHeader × Nat) :=
  match read_string buf pos with
  | none => none
  | some (username, p1) =>
  match read_string buf p1 with
  | none => none
  | some (computerName, p2) =>
  match read_string buf p2 with
  | none => none
  | some (domainName, p3) =>
  match read_u32 buf p3 with
  | none => none
  | some (monitorWidth, p4) =>
  match read_u32 buf p4 with
  | none => none
  | some (monitorHeight, p5) =>
  match read_bool buf p5 with
  | none => none
  | some (isDomainAdmin, p6) =>
  match read_bool buf p6 with
  | none => none
  | some (isLocalAdmin, p7) =>
  match read_bool buf p7 with
  | none => none
  | some (isAmdArch, p8) =>
  match read_u16 buf p8 with
  | none => none
  | some (winMajor, p9) =>
  match read_u16 buf p9 with
  | none => none
  | some (winMinor, p10) =>
  match read_u16 buf p10 with
  | none => none
  | some (winType, p11) =>
  match ProductType.tryFrom winType with
  | none => none
  | some winProductType =>
  match read_u16 buf p11 with
  | none => none
  | some (unknownData, p12) =>
    some (⟨username, computerName, domainName, monitorWidth, monitorHeight,
           isDomainAdmin, isLocalAdmin, isAmdArch, winMajor, winMinor,
           winProductType, unknownData⟩, p12)

/-- `BeaconPacket` (`packets.rs`). -/
structure BeaconPacket where
  header : PacketHeader
  truncated_guid_hash : List Nat
deriving DecidableEq, Repr

/-- `BeaconPacket::from_reader`. -/
def BeaconPacket.from_reader (buf : List Nat) (pos : Nat) :
    Option (BeaconPacket × Nat) :=
  match PacketHeader.from_reader buf pos with
  | none => none
  | some (header, p1) =>
  match read_string buf p1 with
  | none => none
  | some (hash, p2) => some (⟨header, hash⟩, p2)

/-- `InformationPacket` (`packets.rs`). Note: the struct has no field for the
32-bit length value (`buf_len_2`) read between the reserved fields and the
hash; that local is dropped by the source. -/
structure InformationPacket where
  header : PacketHeader
  unknown_short_1 : Nat
  unknown_short_2 : Nat
  truncated_guid_hash : List Nat
  buf_1 : List Nat
  buf_2 : List Nat
deriving DecidableEq, Repr

/-- Result of a decode step that can also panic: `assert_eq!` in
`InformationPacket::from_reader` aborts the process instead of returning a
value, which is distinct from the recoverable `None`. -/
inductive DRes (α : Type) where
  | ok (a : α)
  | fail
  | panicked
deriving DecidableEq, Repr

/-- First stage of `InformationPacket::from_reader`: the header, the two
unknown shorts, and the three `assert_eq!(reader.read_u16()?, 0)` checks.
A short read is a recoverable failure (the `?`), while a nonzero value makes
the assertion panic. Returns the parsed data and the position just before the
32-bit length field. -/
def infoFirstStage (buf : List Nat) (pos : Nat) :
    DRes ((PacketHeader × Nat × Nat) × Nat) :=
  match PacketHeader.from_reader buf pos with
  | none => .fail
  | some (header, p1) =>
  match read_u16 buf p1 with
  | none => .fail
  | some (unk1, p2) =>
  match read_u16 buf p2 with
  | none => .fail
  | some (unk2, p3) =>
  match read_u16 buf p3 with
  | none => .fail
  | some (z1, p4) =>
  if z1 ≠ 0 then .panicked else
  match read_u16 buf p4 with
  | none => .fail
  | some (z2, p5) =>
  if z2 ≠ 0 then .panicked else
  match read_u16 buf p5 with
  | none => .fail
  | some (z3, p6) =>
  if z3 ≠ 0 then .panicked else
  .ok ((header, unk1, unk2), p6)

/-- Tail of `InformationPacket::from_reader` after the 32-bit length field:
the hash string and the two length-prefixed blobs. -/
def infoTail (buf : List Nat) (pos : Nat) (hdr : PacketHeader × Nat × Nat) :
    DRes (InformationPacket × Nat) :=
  match read_string buf pos with
  | none => .fail
  | some (hash, p1) =>
  match read_vec buf p1 with
  | none => .fail
  | some (buf1, p2) =>
  match read_vec buf p2 with
  | none => .fail
  | some (buf2, p3) =>
    .ok (⟨hdr.1, hdr.2.1, hdr.2.2, hash, buf1, buf2⟩, p3)

/-- `InformationPacket::from_reader`: first stage, then the 32-bit length
field `buf_len_2` (whose absence is a recoverable failure and whose value is
bound to a local the source never uses), then the tail. -/
def InformationPacket.from_reader (buf : List Nat) (pos : Nat) :
    DRes (InformationPacket × Nat) :=
  match infoFirstStage buf pos with
  | .fail => .fail
  | .panicked => .panicked
  | .ok (hdr, p1) =>
  match read_u32 buf p1 with
  | none => .fail
  | some (_bufLen2, p2) => infoTail buf p2 hdr

/-- `Packet` (`packets.rs`). -/
inductive Packet where
  | Beacon (b : BeaconPacket)
  | Information (i : InformationPacket)
deriving DecidableEq, Repr

/-- The Unicode scalar values of the literal `"ckav.ru"`. -/
def ckavRu : List Nat := [99, 107, 97, 118, 46, 114, 117]

/-- `TryFrom<&[u8]> for Packet`: read the `u32` identifier, read the domain
string and require it to equal `"ckav.ru"`, map the identifier through
`PacketId::try_from`, then dispatch; the `Unknown` variant and unmapped
identifiers are both rejected. A panic inside the Information tail parser
propagates. -/
def Packet.tryFrom (value : List Nat) : DRes Packet :=
  match read_u32 value 0 with
  | none => .fail
  | some (id, p1) =>
  match read_string value p1 with
  | none => .fail
  | some (domain, p2) =>
  if domain ≠ ckavRu then .fail else
  match PacketId.tryFrom id with
  | none => .fail
  | some PacketId.Beacon =>
    (match BeaconPacket.from_reader value p2 with
     | none => .fail
     | some (packet, _) => .ok (.Beacon packet))
  | some PacketId.Information =>
    (match InformationPacket.from_reader value p2 with
     | .fail => .fail
     | .panicked => .panicked
     | .ok (packet, _) => .ok (.Information packet))
  | some PacketId.Unknown => .fail

/-- `OpCode` (`encoding.rs`): closed `u32` command enumeration. -/
inductive OpCode where
  | StealInfo
  | DownloadExe1
  | DownloadDll
  | DownloadExe2
  | DeleteFile
  | ExitProcess
  | DownloadExe3
  | SetGlobal
  | MoveAndExit
deriving DecidableEq, Repr

/-- The `repr(u32)` discriminant of each `OpCode` variant. -/
def OpCode.toU32 : OpCode → Nat
  | .StealInfo => 10
  | .DownloadExe1 => 0
  | .DownloadDll => 1
  | .DownloadExe2 => 2
  | .DeleteFile => 8
  | .ExitProcess => 14
  | .DownloadExe3 => 15
  | .SetGlobal => 16
  | .MoveAndExit => 17

/-- `TryFrom<u32> for OpCode`. -/
def OpCode.tryFrom (n : Nat) : Option OpCode :=
  if n = 10 then some .StealInfo
  else if n = 0 then some .DownloadExe1
  else if n = 1 then some .DownloadDll
  else if n = 2 then some .DownloadExe2
  else if n = 8 then some .DeleteFile
  else if n = 14 then some .ExitProcess
  else if n = 15 then some .DownloadExe3
  else if n = 16 then some .SetGlobal
  else if n = 17 then some .MoveAndExit
  else none

/-- `Operation` (`encoding.rs`): an opcode and a text argument. The argument
is the UTF-8 byte sequence of the Rust `String`. -/
structure Operation where
  opcode : OpCode
  arg : List Nat
deriving DecidableEq, Repr

/-- `Response` (`encoding.rs`): an ordered list of operations. -/
structure Response where
  ops : List Operation
deriving DecidableEq, Repr

/-- `From<Operation> for Vec<u8>`: blank word, opcode, blank word, argument
length plus one, argument bytes, null terminator. -/
def Operation.toBytes (op : Operation) : List Nat :=
  [0, 0, 0, 0] ++ toLE32 op.opcode.toU32 ++ [0, 0, 0, 0] ++
    toLE32 (op.arg.length + 1) ++ op.arg ++ [0]

/-- `From<Response> for Vec<u8>`: a placeholder word `[9,0,0,0]`, the command
count, the encoded commands; then the first four bytes are overwritten with
the total output length as a little-endian `u32`. -/
def Response.toBytes (r : Response) : List Nat :=
  let body := [9, 0, 0, 0] ++ toLE32 r.ops.length ++
    (r.ops.map Operation.toBytes).flatten
  toLE32 body.length ++ body.drop 4

/-- `Read::read_exact` on a `&mut &[u8]`: on success the first `n` bytes are
returned and the slice is advanced past them; with fewer than `n` bytes the
read fails and the slice is unchanged. -/
def sliceReadExact (n : Nat) (s : List Nat) : Option (List Nat × List Nat) :=
  if n ≤ s.length then some (s.take n, s.drop n) else none

/-- `CString::from_vec_with_nul`: succeeds exactly when the vector ends with a
null byte and contains no interior null byte, yielding the bytes without the
terminator. -/
def cstringFromVecWithNul (v : List Nat) : Option (List Nat) :=
  if v.getLast? = some 0 ∧ ¬ 0 ∈ v.dropLast then some v.dropLast else none

/-- Strict UTF-8 validity of a byte sequence, as checked by
`CString::into_string` (`str::from_utf8`). -/
def utf8Valid : List Nat → Bool
  | [] => true
  | b :: rest =>
    if b < 128 then utf8Valid rest
    else if b < 194 then false
    else if b < 224 then
      match rest with
      | c :: rest2 => isUtf8Cont c && utf8Valid rest2
      | [] => false
    else if b < 240 then
      match rest with
      | c :: d :: rest2 =>
        (if b = 224 then 160 ≤ c && c ≤ 191
         else if b = 237 then 128 ≤ c && c ≤ 159
         else isUtf8Cont c) && isUtf8Cont d && utf8Valid rest2
      | _ => false
    else if b < 245 then
      match rest with
      | c :: d :: e :: rest2 =>
        (if b = 240 then 144 ≤ c && c ≤ 191
         else if b = 244 then 128 ≤ c && c ≤ 143
         else isUtf8Cont c) && isUtf8Cont d && isUtf8Cont e && utf8Valid rest2
      | _ => false
    else false

/-- `TryFrom<&mut &[u8]> for Operation`: reserved word (rejecting the all-ones
sentinel), opcode, second reserved word, declared argument length; a zero
length is the empty string, otherwise the declared bytes are read, converted
through `CString::from_vec_with_nul` and `CString::into_string`, and the
recovered text's length plus one must equal the declared length. Returns the
operation and the remaining bytes of the slice. -/
def Operation.tryFromBytes (s : List Nat) : Option (Operation × List Nat) :=
  match sliceReadExact 4 s with
  | none => none
  | some (w1, s1) =>
  if u32OfLE w1 = 4294967295 then none else
  match sliceReadExact 4 s1 with
  | none => none
  | some (opBytes, s2) =>
  match OpCode.tryFrom (u32OfLE opBytes) with
  | none => none
  | some opcode =>
  match sliceReadExact 4 s2 with
  | none => none
  | some (_, s3) =>
  match sliceReadExact 4 s3 with
  | none => none
  | some (lenBytes, s4) =>
  if u32OfLE lenBytes = 0 then some (⟨opcode, []⟩, s4) else
  match sliceReadExact (u32OfLE lenBytes) s4 with
  | none => none
  | some (strBytes, s5) =>
  match cstringFromVecWithNul strBytes with
  | none => none
  | some argBytes =>
  if utf8Valid argBytes then
    if argBytes.length + 1 = u32OfLE lenBytes then some (⟨opcode, argBytes⟩, s5)
    else none
  else none

/-- The loop of `TryFrom<&mut &[u8]> for Response`: decode exactly `n`
operations sequentially, aborting on the first failure. -/
def decodeOps : Nat → List Nat → Option (List Operation × List Nat)
  | 0, s => some ([], s)
  | n + 1, s =>
    match Operation.tryFromBytes s with
    | none => none
    | some (op, s1) =>
      match decodeOps n s1 with
      | none => none
      | some (ops, s2) => some (op :: ops, s2)

/-- The phase of `Response` decoding that follows the total-length check: read
the operation count and decode that many operations; trailing bytes are left
unconsumed in the slice and ignored. -/
def responseOpsPhase (s : List Nat) : Option (Response × List Nat) :=
  match sliceReadExact 4 s with
  | none => none
  | some (cntBytes, s1) =>
    match decodeOps (u32OfLE cntBytes) s1 with
    | none => none
    | some (ops, s2) => some (⟨ops⟩, s2)

/-- `TryFrom<&mut &[u8]> for Response`: read the declared total length and
reject when it exceeds the remaining bytes plus the four bytes just consumed;
then read the operation count and decode that many operations. Returns the
response and the unconsumed remainder of the slice. -/
def Response.tryFromBytes (s : List Nat) : Option (Response × List Nat) :=
  match sliceReadExact 4 s with
  | none => none
  | some (lenBytes, s1) =>
  if u32OfLE lenBytes > s1.length + 4 then none else
  match sliceReadExact 4 s1 with
  | none => none
  | some (cntBytes, s2) =>
    match decodeOps (u32OfLE cntBytes) s2 with
    | none => none
    | some (ops, s3) => some (⟨ops⟩, s3)

lemma toLE32_length (n : Nat) : (toLE32 n).length = 4 := rfl

lemma u32OfLE_toLE32 (n : Nat) : u32OfLE (toLE32 n) = n % 4294967296 := by
  simp only [toLE32, u32OfLE]
  omega

lemma read_bytes_exact_eq (n : Nat) (buf : List Nat) (pos : Nat) :
    read_bytes_exact n buf pos =
      if n ≤ buf.length - pos then some ((buf.drop pos).take n, pos + n)
      else none := by
  unfold read_bytes_exact cursorReadExact
  simp only [List.length_drop]
  by_cases hc : n ≤ buf.length - pos
  · rw [if_pos hc, if_pos hc]
  · rw [if_neg hc, if_neg hc]

lemma read_u16_eq (buf : List Nat) (pos : Nat) :
    read_u16 buf pos =
      if 2 ≤ buf.length - pos then
        some (u16OfLE ((buf.drop pos).take 2), pos + 2)
      else none := by
  unfold read_u16
  rw [read_bytes_exact_eq]
  by_cases hc : 2 ≤ buf.length - pos
  · rw [if_pos hc, if_pos hc]
  · rw [if_neg hc, if_neg hc]

lemma read_u32_eq (buf : List Nat) (pos : Nat) :
    read_u32 buf pos =
      if 4 ≤ buf.length - pos then
        some (u32OfLE ((buf.drop pos).take 4), pos + 4)
      else none := by
  unfold read_u32
  rw [read_bytes_exact_eq]
  by_cases hc : 4 ≤ buf.length - pos
  · rw [if_pos hc, if_pos hc]
  · rw [if_neg hc, if_neg hc]

lemma read_u16_shape {buf : List Nat} {p v p2 : Nat}
    (h : read_u16 buf p = some (v, p2)) : p2 = p + 2 ∧ p + 2 ≤ buf.length := by
  rw [read_u16_eq] at h
  split at h
  · injection h with h2
    injection h2 with hv hp
    constructor
    · exact hp.symm
    · omega
  · exact absurd h (by simp)

lemma read_u32_shape {buf : List Nat} {p v p2 : Nat}
    (h : read_u32 buf p = some (v, p2)) : p2 = p + 4 ∧ p + 4 ≤ buf.length := by
  rw [read_u32_eq] at h
  split at h
  · injection h with h2
    injection h2 with hv hp
    constructor
    · exact hp.symm
    · omega
  · exact absurd h (by simp)

/-- Counterexample for C8 as stated: at the concrete reader state with buffer
`[5,6,7]` and position 1, a 3-byte read fails — and the cursor position is 3,
the end of the buffer, not the unchanged position 1: `Cursor::read_exact`
places the cursor at EOF on its error path, so the failed read does not leave
the position unchanged. -/
theorem cursorReadExact_failure_consumes :
    cursorReadExact [5, 6, 7] 1 3 = (none, 3) ∧
    cursorReadExact [5, 6, 7] 1 3 ≠ (none, 1) := by decide

/-- Claim C8 (amended): for every reader state whose position does not exceed
the buffer length and every requested byte count `n`, the exact read of the
`BodyReader` cursor returns the next `n` bytes of the buffer and advances the
position by exactly `n` when at least `n` bytes remain; when fewer than `n`
bytes remain it signals a truncation failure and leaves the cursor at the end
of the buffer (all remaining bytes consumed), so the reader is only good for
discarding. -/
theorem read_bytes_exact_frame (buf : List Nat) (p n : Nat)
    (hp : p ≤ buf.length) :
    (p + n ≤ buf.length →
      cursorReadExact buf p n = (some ((buf.drop p).take n), p + n)) ∧
    (buf.length < p + n → cursorReadExact buf p n = (none, buf.length)) := by
  unfold cursorReadExact
  simp only [List.length_drop]
  constructor
  · intro h
    rw [if_pos (by omega)]
  · intro h
    rw [if_neg (by omega)]

/-- Witness for C8's amended theorem at a concrete reader state: buffer
`[5,6,7]`, position 1; a 2-byte read succeeds returning `[6,7]` and position
3, while a 3-byte read fails leaving the position at the buffer end. -/
theorem read_bytes_exact_frame_witness :
    cursorReadExact [5, 6, 7] 1 2 = (some (([5, 6, 7].drop 1).take 2), 1 + 2) ∧
    cursorReadExact [5, 6, 7] 1 3 = (none, ([5, 6, 7] : List Nat).length) :=
  ⟨(read_bytes_exact_frame [5, 6, 7] 1 2 (by decide)).1 (by decide),
   (read_bytes_exact_frame [5, 6, 7] 1 3 (by decide)).2 (by decide)⟩

/-- Claim C9: for every `Response`, the first four bytes of the encoded output
are the little-endian 32-bit encoding of the total length of the entire
encoded buffer, those four bytes included: the placeholder written at the
start is patched with the final length. -/
theorem response_encoding_length_prefix (r : Response) :
    (Response.toBytes r).take 4 = toLE32 (Response.toBytes r).length := by
  unfold Response.toBytes
  simp only
  rw [List.take_left' (toLE32_length _)]
  congr 1

/-- A concrete Information packet whose first reserved 16-bit field decodes to
1: identifier `0x00270012`, domain `"ckav.ru"`, a minimal valid header (empty
strings, workstation product type), the two unknown shorts, then the bytes
`[1, 0]` where the first fixed-zero field is expected. -/
def infoReservedNonzeroInput : List Nat :=
  [0x12, 0x00, 0x27, 0x00] ++ [0, 0, 7, 0, 0, 0] ++
  [0x63, 0x6b, 0x61, 0x76, 0x2e, 0x72, 0x75] ++
  [0, 0, 0, 0, 0, 0] ++ [0, 0, 0, 0, 0, 0] ++ [0, 0, 0, 0, 0, 0] ++
  [0, 0, 0, 0] ++ [0, 0, 0, 0] ++ [0, 0] ++ [0, 0] ++ [0, 0] ++
  [0, 0] ++ [0, 0] ++ [1, 0] ++ [0, 0] ++
  [0, 0] ++ [0, 0] ++ [1, 0]

/-- Claim C1 (code bug): decoding a packet whose reserved field is nonzero
does not return the recoverable failure value — the `assert_eq!` in
`InformationPacket::from_reader` panics, aborting the process, which the
spec's design notes call a defect. At the concrete input the decoder's result
is the panic outcome, distinct from the recoverable `DRes.fail`. -/
theorem information_reserved_nonzero_panics :
    Packet.tryFrom infoReservedNonzeroInput = DRes.panicked ∧
    Packet.tryFrom infoReservedNonzeroInput ≠ DRes.fail := by decide

/-- Claim C4: after the 32-bit identifier and a domain string equal to
`"ckav.ru"` have been read successfully, dispatch rejects every identifier
other than `0x00280012` (Beacon) and `0x00270012` (Information) — including
`0x00270013`, the implicit discriminant of `PacketId::Unknown`, which
`PacketId::try_from` accepts but the dispatch `match` then rejects. -/
theorem packet_dispatch_rejects_other_ids (buf : List Nat)
    (id p1 p2 : Nat)
    (h1 : read_u32 buf 0 = some (id, p1))
    (h2 : read_string buf p1 = some (ckavRu, p2))
    (hb : id ≠ 0x00280012) (hi : id ≠ 0x00270012) :
    Packet.tryFrom buf = DRes.fail := by
  unfold Packet.tryFrom
  simp only [h1, h2]
  rw [if_neg (by simp)]
  unfold PacketId.tryFrom
  rw [if_neg hb, if_neg hi]
  by_cases hu : id = 0x00270013
  · rw [if_pos hu]
  · rw [if_neg hu]

/-- Witness for C4: the identifier `0x00270013` (the `Unknown` discriminant)
followed by a well-formed `"ckav.ru"` domain string is rejected. -/
theorem packet_dispatch_rejects_other_ids_witness :
    Packet.tryFrom ([0x13, 0x00, 0x27, 0x00] ++ [0, 0, 7, 0, 0, 0] ++
      [0x63, 0x6b, 0x61, 0x76, 0x2e, 0x72, 0x75]) = DRes.fail :=
  packet_dispatch_rejects_other_ids _ 0x00270013 4 17
    (by decide) (by decide) (by decide) (by decide)

lemma sliceReadExact_append {l1 : List Nat} {n : Nat} (l2 : List Nat)
    (h : l1.length = n) : sliceReadExact n (l1 ++ l2) = some (l1, l2) := by
  unfold sliceReadExact
  rw [if_pos (by simp [List.length_append, h])]
  rw [List.take_left' h, List.drop_left' h]

lemma tryFromBytes_head_eq (a b c d : Nat) (rest : List Nat)
    (h : u32OfLE [a, b, c, d] ≤ rest.length + 4) :
    Response.tryFromBytes (a :: b :: c :: d :: rest) = responseOpsPhase rest := by
  unfold Response.tryFromBytes responseOpsPhase
  have hs := @sliceReadExact_append [a, b, c, d] 4 rest rfl
  simp only [List.cons_append, List.nil_append] at hs
  simp only [hs]
  rw [if_neg (by omega)]

lemma tryFromBytes_head_none (a b c d : Nat) (rest : List Nat)
    (h : u32OfLE [a, b, c, d] > rest.length + 4) :
    Response.tryFromBytes (a :: b :: c :: d :: rest) = none := by
  unfold Response.tryFromBytes
  have hs := @sliceReadExact_append [a, b, c, d] 4 rest rfl
  simp only [List.cons_append, List.nil_append] at hs
  simp only [hs]
  rw [if_pos (by omega)]

/-- Claim C5: `Response` decoding fails whenever the declared 32-bit total
length exceeds the bytes remaining after the length field plus the 4 bytes of
the field itself, whatever operation records follow; and when the declared
length is at most that available count it proceeds straight to the operation
phase, so it never fails on this check. -/
theorem response_declared_length_check (a b c d : Nat) (rest : List Nat) :
    (u32OfLE [a, b, c, d] > rest.length + 4 →
      Response.tryFromBytes (a :: b :: c :: d :: rest) = none) ∧
    (u32OfLE [a, b, c, d] ≤ rest.length + 4 →
      Response.tryFromBytes (a :: b :: c :: d :: rest) = responseOpsPhase rest) :=
  ⟨tryFromBytes_head_none a b c d rest, tryFromBytes_head_eq a b c d rest⟩

/-- Witness for C5: a declared length of 9 over an empty remainder (9 > 4) is
rejected even though zero further operation records follow; a declared length
of 8 over a well-formed empty response is accepted and handed to the
operation phase. -/
theorem response_declared_length_check_witness :
    Response.tryFromBytes [9, 0, 0, 0] = none ∧
    Response.tryFromBytes [8, 0, 0, 0, 0, 0, 0, 0] =
      responseOpsPhase [0, 0, 0, 0] :=
  ⟨(response_declared_length_check 9 0 0 0 []).1 (by decide),
   (response_declared_length_check 8 0 0 0 [0, 0, 0, 0]).2 (by decide)⟩

/-- Claim C10: the declared total length is used only as an upper bound, never
checked for exactness: two buffers with the same bytes after the length field
and any two declared lengths that are at most the available count decode
identically, so the declared value does not otherwise influence the result. -/
theorem response_declared_length_not_exact (a b c d a2 b2 c2 d2 : Nat)
    (rest : List Nat)
    (h1 : u32OfLE [a, b, c, d] ≤ rest.length + 4)
    (h2 : u32OfLE [a2, b2, c2, d2] ≤ rest.length + 4) :
    Response.tryFromBytes (a :: b :: c :: d :: rest) =
      Response.tryFromBytes (a2 :: b2 :: c2 :: d2 :: rest) :=
  (tryFromBytes_head_eq a b c d rest h1).trans
    (tryFromBytes_head_eq a2 b2 c2 d2 rest h2).symm

/-- The tail of the C10 witness buffer: operation count 1 followed by one
19-byte operation record (`DeleteFile`, argument `"ab"`). -/
def shortDeclaredRest : List Nat :=
  [1, 0, 0, 0] ++ [0, 0, 0, 0, 8, 0, 0, 0, 0, 0, 0, 0, 3, 0, 0, 0, 97, 98, 0]

/-- Witness for C10: with the same 23-byte tail, a declared total length of 8
— strictly smaller than the 27 bytes the encoded response actually occupies —
decodes exactly like the correct declared length 27, and succeeds. -/
theorem response_declared_length_not_exact_witness :
    Response.tryFromBytes (8 :: 0 :: 0 :: 0 :: shortDeclaredRest) =
      Response.tryFromBytes (27 :: 0 :: 0 :: 0 :: shortDeclaredRest) ∧
    Response.tryFromBytes (8 :: 0 :: 0 :: 0 :: shortDeclaredRest) =
      some (⟨[⟨OpCode.DeleteFile, [97, 98]⟩]⟩, []) :=
  ⟨response_declared_length_not_exact 8 0 0 0 27 0 0 0 shortDeclaredRest
      (by decide) (by decide),
   by decide⟩

lemma sliceReadExact_extra {n : Nat} {s bs s1 : List Nat} (extra : List Nat)
    (h : sliceReadExact n s = some (bs, s1)) :
    sliceReadExact n (s ++ extra) = some (bs, s1 ++ extra) := by
  unfold sliceReadExact at h ⊢
  by_cases hc : n ≤ s.length
  · rw [if_pos hc] at h
    injection h with h
    injection h with hbs hs1
    rw [if_pos (by simp only [List.length_append]; omega)]
    rw [List.take_append_of_le_length hc, List.drop_append_of_le_length hc,
      hbs, hs1]
  · rw [if_neg hc] at h
    exact Option.noConfusion h

lemma operation_tryFromBytes_extra {s : List Nat} {op : Operation}
    {s1 : List Nat} (extra : List Nat)
    (h : Operation.tryFromBytes s = some (op, s1)) :
    Operation.tryFromBytes (s ++ extra) = some (op, s1 ++ extra) := by
  unfold Operation.tryFromBytes at h ⊢
  cases h1 : sliceReadExact 4 s with
  | none => rw [h1] at h; exact Option.noConfusion h
  | some pr1 =>
    obtain ⟨w1, t1⟩ := pr1
    simp only [h1] at h
    simp only [sliceReadExact_extra extra h1]
    by_cases hw : u32OfLE w1 = 4294967295
    · rw [if_pos hw] at h; exact Option.noConfusion h
    · rw [if_neg hw] at h ⊢
      cases h2 : sliceReadExact 4 t1 with
      | none => rw [h2] at h; exact Option.noConfusion h
      | some pr2 =>
        obtain ⟨opBytes, t2⟩ := pr2
        simp only [h2] at h
        simp only [sliceReadExact_extra extra h2]
        cases h3 : OpCode.tryFrom (u32OfLE opBytes) with
        | none => rw [h3] at h; exact Option.noConfusion h
        | some opcode =>
          simp only [h3] at h ⊢
          cases h4 : sliceReadExact 4 t2 with
          | none => rw [h4] at h; exact Option.noConfusion h
          | some pr3 =>
            obtain ⟨ign, t3⟩ := pr3
            simp only [h4] at h
            simp only [sliceReadExact_extra extra h4]
            cases h5 : sliceReadExact 4 t3 with
            | none => rw [h5] at h; exact Option.noConfusion h
            | some pr4 =>
              obtain ⟨lenBytes, t4⟩ := pr4
              simp only [h5] at h
              simp only [sliceReadExact_extra extra h5]
              by_cases hz : u32OfLE lenBytes = 0
              · rw [if_pos hz] at h ⊢
                injection h with h
                injection h with hop hs1
                rw [hop, hs1]
              · rw [if_neg hz] at h ⊢
                cases h6 : sliceReadExact (u32OfLE lenBytes) t4 with
                | none => rw [h6] at h; exact Option.noConfusion h
                | some pr5 =>
                  obtain ⟨strBytes, t5⟩ := pr5
                  simp only [h6] at h
                  simp only [sliceReadExact_extra extra h6]
                  cases h7 : cstringFromVecWithNul strBytes with
                  | none => rw [h7] at h; exact Option.noConfusion h
                  | some argBytes =>
                    simp only [h7] at h ⊢
                    by_cases h8 : utf8Valid argBytes
                    · rw [if_pos h8] at h ⊢
                      by_cases h9 : argBytes.length + 1 = u32OfLE lenBytes
                      · rw [if_pos h9] at h ⊢
                        injection h with h
                        injection h with hop hs1
                        rw [hop, hs1]
                      · rw [if_neg h9] at h; exact Option.noConfusion h
                    · rw [if_neg h8] at h; exact Option.noConfusion h

lemma decodeOps_extra (n : Nat) {s : List Nat} {ops : List Operation}
    {s1 : List Nat} (extra : List Nat)
    (h : decodeOps n s = some (ops, s1)) :
    decodeOps n (s ++ extra) = some (ops, s1 ++ extra) := by
  induction n generalizing s ops s1 with
  | zero =>
    unfold decodeOps at h ⊢
    injection h with h
    injection h with hops hs1
    rw [hops, hs1]
  | succ m ih =>
    unfold decodeOps at h ⊢
    cases h1 : Operation.tryFromBytes s with
    | none => rw [h1] at h; exact Option.noConfusion h
    | some pr =>
      obtain ⟨op, t⟩ := pr
      simp only [h1] at h
      simp only [operation_tryFromBytes_extra extra h1]
      cases h2 : decodeOps m t with
      | none => rw [h2] at h; exact Option.noConfusion h
      | some pr2 =>
        obtain ⟨ops2, t2⟩ := pr2
        simp only [h2] at h
        simp only [ih h2]
        injection h with h
        injection h with hops hs1
        rw [← hops, ← hs1]

/-- Claim C6: appending arbitrary trailing bytes after a buffer from which a
`Response` decodes successfully leaves decoding successful with the same
`Response` value; the extra bytes simply remain unconsumed. -/
theorem response_decode_ignores_trailing {s : List Nat} {r : Response}
    {rem : List Nat} (extra : List Nat)
    (h : Response.tryFromBytes s = some (r, rem)) :
    Response.tryFromBytes (s ++ extra) = some (r, rem ++ extra) := by
  unfold Response.tryFromBytes at h ⊢
  cases h1 : sliceReadExact 4 s with
  | none => rw [h1] at h; exact Option.noConfusion h
  | some pr =>
    obtain ⟨lenBytes, s1⟩ := pr
    simp only [h1] at h
    simp only [sliceReadExact_extra extra h1]
    by_cases hl : u32OfLE lenBytes > s1.length + 4
    · rw [if_pos hl] at h; exact Option.noConfusion h
    · rw [if_neg hl] at h
      rw [if_neg (by simp only [List.length_append]; omega)]
      cases h2 : sliceReadExact 4 s1 with
      | none => rw [h2] at h; exact Option.noConfusion h
      | some pr2 =>
        obtain ⟨cntBytes, s2⟩ := pr2
        simp only [h2] at h
        simp only [sliceReadExact_extra extra h2]
        cases h3 : decodeOps (u32OfLE cntBytes) s2 with
        | none => rw [h3] at h; exact Option.noConfusion h
        | some pr3 =>
          obtain ⟨ops, s3⟩ := pr3
          simp only [h3] at h
          simp only [decodeOps_extra _ extra h3]
          injection h with h
          injection h with hr hrem
          rw [← hr, ← hrem]

/-- Witness for C6: trailing garbage `[9, 9, 9]` after a fully declared
two-operation response is ignored and the decoded value is unchanged. -/
theorem response_decode_ignores_trailing_witness :
    Response.tryFromBytes
        ([44, 0, 0, 0, 2, 0, 0, 0,
          0, 0, 0, 0, 8, 0, 0, 0, 0, 0, 0, 0, 3, 0, 0, 0, 97, 98, 0,
          0, 0, 0, 0, 0, 0, 0, 0, 0, 0, 0, 0, 1, 0, 0, 0, 0] ++ [9, 9, 9]) =
      some (⟨[⟨OpCode.DeleteFile, [97, 98]⟩, ⟨OpCode.DownloadExe1, []⟩]⟩,
            [] ++ [9, 9, 9]) :=
  response_decode_ignores_trailing [9, 9, 9] (by decide)

lemma OpCode.tryFrom_toU32 (oc : OpCode) : OpCode.tryFrom oc.toU32 = some oc := by
  cases oc <;> rfl

lemma OpCode.toU32_lt (oc : OpCode) : oc.toU32 < 4294967296 := by
  cases oc <;> decide

lemma cstringFromVecWithNul_append_nul (arg : List Nat) (h : ¬ 0 ∈ arg) :
    cstringFromVecWithNul (arg ++ [0]) = some arg := by
  unfold cstringFromVecWithNul
  rw [if_pos ⟨List.getLast?_concat arg, by rw [List.dropLast_concat]; exact h⟩]
  rw [List.dropLast_concat]

lemma operation_roundtrip (op : Operation) (rest : List Nat)
    (hnul : ¬ 0 ∈ op.arg) (hval : utf8Valid op.arg = true)
    (hlen : op.arg.length + 1 < 4294967296) :
    Operation.tryFromBytes (op.toBytes ++ rest) = some (op, rest) := by
  obtain ⟨oc, arg⟩ := op
  simp only at hnul hval hlen
  have hmain : Operation.toBytes ⟨oc, arg⟩ ++ rest =
      [0, 0, 0, 0] ++ (toLE32 oc.toU32 ++ ([0, 0, 0, 0] ++
        (toLE32 (arg.length + 1) ++ ((arg ++ [0]) ++ rest)))) := by
    simp [Operation.toBytes, List.append_assoc]
  rw [hmain]
  unfold Operation.tryFromBytes
  have e1 := @sliceReadExact_append [0, 0, 0, 0] 4
    (toLE32 oc.toU32 ++ ([0, 0, 0, 0] ++
      (toLE32 (arg.length + 1) ++ ((arg ++ [0]) ++ rest)))) rfl
  simp only [e1]
  rw [if_neg (by decide)]
  have e2 := @sliceReadExact_append (toLE32 oc.toU32) 4
    ([0, 0, 0, 0] ++ (toLE32 (arg.length + 1) ++ ((arg ++ [0]) ++ rest)))
    (toLE32_length _)
  simp only [e2]
  have hoc : u32OfLE (toLE32 oc.toU32) = oc.toU32 := by
    rw [u32OfLE_toLE32]
    exact Nat.mod_eq_of_lt (OpCode.toU32_lt oc)
  simp only [hoc, OpCode.tryFrom_toU32]
  have e3 := @sliceReadExact_append [0, 0, 0, 0] 4
    (toLE32 (arg.length + 1) ++ ((arg ++ [0]) ++ rest)) rfl
  simp only [e3]
  have e4 := @sliceReadExact_append (toLE32 (arg.length + 1)) 4
    ((arg ++ [0]) ++ rest) (toLE32_length _)
  simp only [e4]
  have hlv : u32OfLE (toLE32 (arg.length + 1)) = arg.length + 1 := by
    rw [u32OfLE_toLE32]
    exact Nat.mod_eq_of_lt hlen
  simp only [hlv]
  rw [if_neg (by omega)]
  have e5 := @sliceReadExact_append (arg ++ [0]) (arg.length + 1)
    rest (by simp)
  simp only [e5]
  simp only [cstringFromVecWithNul_append_nul arg hnul]
  rw [if_pos hval]
  simp

lemma decodeOps_roundtrip (ops : List Operation) (rest : List Nat)
    (h : ∀ op ∈ ops, ¬ 0 ∈ op.arg ∧ utf8Valid op.arg = true ∧
      op.arg.length + 1 < 4294967296) :
    decodeOps ops.length ((ops.map Operation.toBytes).flatten ++ rest) =
      some (ops, rest) := by
  induction ops with
  | nil =>
    unfold decodeOps
    simp
  | cons op ops ih =>
    have hop := h op (by simp)
    have hrest : ∀ o ∈ ops, ¬ 0 ∈ o.arg ∧ utf8Valid o.arg = true ∧
        o.arg.length + 1 < 4294967296 :=
      fun o ho => h o (by simp [ho])
    simp only [List.map_cons, List.flatten_cons, List.length_cons,
      List.append_assoc]
    unfold decodeOps
    simp only [operation_roundtrip op _ hop.1 hop.2.1 hop.2.2]
    simp only [ih hrest]

/-- Claim C3: for every `Response` whose operations' arguments (byte
sequences of Rust `String`s, hence valid UTF-8) contain no embedded null
byte, and whose operation count and argument-length-plus-one values fit in a
32-bit field, decoding the bytes produced by encoding the response yields the
original response, with nothing left over. -/
theorem response_decode_encode_roundtrip (r : Response)
    (hargs : ∀ op ∈ r.ops, ¬ 0 ∈ op.arg ∧ utf8Valid op.arg = true ∧
      op.arg.length + 1 < 4294967296)
    (hcount : r.ops.length < 4294967296) :
    Response.tryFromBytes (Response.toBytes r) = some (r, []) := by
  obtain ⟨ops⟩ := r
  simp only at hargs hcount
  have hbytes : Response.toBytes ⟨ops⟩ =
      toLE32 (8 + ((ops.map Operation.toBytes).flatten).length) ++
        (toLE32 ops.length ++ (ops.map Operation.toBytes).flatten) := by
    unfold Response.toBytes
    simp only [List.append_assoc]
    rw [List.drop_left' (show ([9, 0, 0, 0] : List Nat).length = 4 from rfl)]
    congr 1
    congr 1
    simp only [List.length_append, toLE32_length, List.length_cons,
      List.length_nil]
    omega
  rw [hbytes]
  unfold Response.tryFromBytes
  have e1 := @sliceReadExact_append
    (toLE32 (8 + ((ops.map Operation.toBytes).flatten).length)) 4
    (toLE32 ops.length ++ (ops.map Operation.toBytes).flatten)
    (toLE32_length _)
  simp only [e1]
  rw [if_neg (by
    rw [u32OfLE_toLE32]
    simp only [List.length_append, toLE32_length]
    omega)]
  have e2 := @sliceReadExact_append (toLE32 ops.length) 4
    ((ops.map Operation.toBytes).flatten) (toLE32_length _)
  simp only [e2]
  have hcnt : u32OfLE (toLE32 ops.length) = ops.length := by
    rw [u32OfLE_toLE32]
    exact Nat.mod_eq_of_lt hcount
  simp only [hcnt]
  have hops := decodeOps_roundtrip ops [] hargs
  rw [List.append_nil] at hops
  simp only [hops]

/-- Witness for C3: the two-operation response from the source's own tests
(`DeleteFile "ab"` then `DownloadExe1 ""`) round-trips through encode and
decode. -/
theorem response_decode_encode_roundtrip_witness :
    Response.tryFromBytes (Response.toBytes
        ⟨[⟨OpCode.DeleteFile, [97, 98]⟩, ⟨OpCode.DownloadExe1, []⟩]⟩) =
      some (⟨[⟨OpCode.DeleteFile, [97, 98]⟩, ⟨OpCode.DownloadExe1, []⟩]⟩, []) :=
  response_decode_encode_roundtrip _ (by decide) (by decide)

lemma drop_eq_shift {b1 b2 : List Nat} {p : Nat}
    (h : b1.drop p = b2.drop p) (c : Nat) :
    b1.drop (p + c) = b2.drop (p + c) := by
  have h2 := congrArg (List.drop c) h
  rw [List.drop_drop, List.drop_drop] at h2
  exact h2

lemma read_bytes_exact_congr {b1 b2 : List Nat} {p : Nat}
    (h : b1.drop p = b2.drop p) (n : Nat) :
    read_bytes_exact n b1 p = read_bytes_exact n b2 p := by
  rw [read_bytes_exact_eq, read_bytes_exact_eq]
  have hl : b1.length - p = b2.length - p := by
    rw [← List.length_drop, ← List.length_drop, h]
  rw [hl, h]

lemma read_u16_congr {b1 b2 : List Nat} {p : Nat}
    (h : b1.drop p = b2.drop p) : read_u16 b1 p = read_u16 b2 p := by
  unfold read_u16
  rw [read_bytes_exact_congr h]

lemma read_u32_congr {b1 b2 : List Nat} {p : Nat}
    (h : b1.drop p = b2.drop p) : read_u32 b1 p = read_u32 b2 p := by
  unfold read_u32
  rw [read_bytes_exact_congr h]

lemma read_string_congr {b1 b2 : List Nat} {p : Nat}
    (h : b1.drop p = b2.drop p) : read_string b1 p = read_string b2 p := by
  unfold read_string
  rw [read_u16_congr h]
  cases hr : read_u16 b2 p with
  | none => rfl
  | some pr =>
    obtain ⟨kind, p1⟩ := pr
    simp only
    have hp1 : p1 = p + 2 := (read_u16_shape hr).1
    have h1 : b1.drop p1 = b2.drop p1 := hp1 ▸ drop_eq_shift h 2
    rw [read_u32_congr h1]
    cases hr2 : read_u32 b2 p1 with
    | none => rfl
    | some pr2 =>
      obtain ⟨len, p2⟩ := pr2
      simp only
      have hp2 : p2 = p1 + 4 := (read_u32_shape hr2).1
      have h2 : b1.drop p2 = b2.drop p2 := hp2 ▸ drop_eq_shift h1 4
      unfold cursorReadExact
      rw [h2]
      by_cases hc : len ≤ (b2.drop p2).length
      · rw [if_pos hc, if_pos hc]
      · rw [if_neg hc, if_neg hc]

lemma read_vec_congr {b1 b2 : List Nat} {p : Nat}
    (h : b1.drop p = b2.drop p) : read_vec b1 p = read_vec b2 p := by
  unfold read_vec
  rw [read_u32_congr h]
  cases hr : read_u32 b2 p with
  | none => rfl
  | some pr =>
    obtain ⟨len, p1⟩ := pr
    simp only
    have hp1 : p1 = p + 4 := (read_u32_shape hr).1
    have h1 : b1.drop p1 = b2.drop p1 := hp1 ▸ drop_eq_shift h 4
    unfold cursorReadExact
    rw [h1]
    by_cases hc : len ≤ (b2.drop p1).length
    · rw [if_pos hc, if_pos hc]
    · rw [if_neg hc, if_neg hc]

lemma read_string_mono {buf : List Nat} {p : Nat} {s : List Nat} {p2 : Nat}
    (h : read_string buf p = some (s, p2)) : p ≤ p2 := by
  unfold read_string at h
  cases h1 : read_u16 buf p with
  | none => rw [h1] at h; exact Option.noConfusion h
  | some pr =>
    obtain ⟨kind, q1⟩ := pr
    simp only [h1] at h
    cases h2 : read_u32 buf q1 with
    | none => rw [h2] at h; exact Option.noConfusion h
    | some pr2 =>
      obtain ⟨len, q2⟩ := pr2
      simp only [h2] at h
      unfold cursorReadExact at h
      have hq1 := read_u16_shape h1
      have hq2 := read_u32_shape h2
      by_cases hc : len ≤ (buf.drop q2).length
      · rw [if_pos hc] at h
        simp only [Option.some.injEq, Prod.mk.injEq] at h
        omega
      · rw [if_neg hc] at h
        exact Option.noConfusion h

lemma read_vec_mono {buf : List Nat} {p : Nat} {s : List Nat} {p2 : Nat}
    (h : read_vec buf p = some (s, p2)) : p ≤ p2 := by
  unfold read_vec at h
  cases h1 : read_u32 buf p with
  | none => rw [h1] at h; exact Option.noConfusion h
  | some pr =>
    obtain ⟨len, q1⟩ := pr
    simp only [h1] at h
    unfold cursorReadExact at h
    have hq1 := read_u32_shape h1
    by_cases hc : len ≤ (buf.drop q1).length
    · rw [if_pos hc] at h
      simp only [Option.some.injEq, Prod.mk.injEq] at h
      omega
    · rw [if_neg hc] at h
      exact Option.noConfusion h

lemma infoTail_congr {b1 b2 : List Nat} {p : Nat}
    (h : b1.drop p = b2.drop p) (x : PacketHeader × Nat × Nat) :
    infoTail b1 p x = infoTail b2 p x := by
  unfold infoTail
  rw [read_string_congr h]
  cases hs : read_string b2 p with
  | none => rfl
  | some pr =>
    obtain ⟨hash, p1⟩ := pr
    simp only
    have hm := read_string_mono hs
    have h1 : b1.drop p1 = b2.drop p1 := by
      have h2 := drop_eq_shift h (p1 - p)
      rwa [Nat.add_sub_cancel' hm] at h2
    rw [read_vec_congr h1]
    cases hv : read_vec b2 p1 with
    | none => rfl
    | some pr2 =>
      obtain ⟨v1, p2⟩ := pr2
      simp only
      have hm2 := read_vec_mono hv
      have h2 : b1.drop p2 = b2.drop p2 := by
        have h3 := drop_eq_shift h1 (p2 - p1)
        rwa [Nat.add_sub_cancel' hm2] at h3
      rw [read_vec_congr h2]

/-- Claim C2 (amended), counterexample part: two concrete Information-packet
bodies that differ only in the four bytes of the 32-bit length field (values
5 and 99) decode to the very same `InformationPacket` value, so the packet
record cannot retain the field that was read — the source reads `buf_len_2`
into a local and never stores it. -/
def infoLenFieldA : List Nat :=
  [0, 0, 0, 0, 0, 0] ++ [0, 0, 0, 0, 0, 0] ++ [0, 0, 0, 0, 0, 0] ++
  [0, 0, 0, 0] ++ [0, 0, 0, 0] ++ [0, 0] ++ [0, 0] ++ [0, 0] ++
  [0, 0] ++ [0, 0] ++ [1, 0] ++ [0, 0] ++ [0, 0] ++ [0, 0] ++
  [0, 0] ++ [0, 0] ++ [0, 0] ++ [5, 0, 0, 0] ++
  [0, 0, 2, 0, 0, 0, 65, 66] ++ [1, 0, 0, 0, 7] ++ [0, 0, 0, 0]

/-- The same bytes as `infoLenFieldA` with the 32-bit length field set to 99
instead of 5. -/
def infoLenFieldB : List Nat :=
  [0, 0, 0, 0, 0, 0] ++ [0, 0, 0, 0, 0, 0] ++ [0, 0, 0, 0, 0, 0] ++
  [0, 0, 0, 0] ++ [0, 0, 0, 0] ++ [0, 0] ++ [0, 0] ++ [0, 0] ++
  [0, 0] ++ [0, 0] ++ [1, 0] ++ [0, 0] ++ [0, 0] ++ [0, 0] ++
  [0, 0] ++ [0, 0] ++ [0, 0] ++ [99, 0, 0, 0] ++
  [0, 0, 2, 0, 0, 0, 65, 66] ++ [1, 0, 0, 0, 7] ++ [0, 0, 0, 0]

/-- The `InformationPacket` decoded from both `infoLenFieldA` and
`infoLenFieldB`. -/
def infoLenFieldPacket : InformationPacket :=
  ⟨⟨[], [], [], 0, 0, false, false, false, 0, 0,
    ProductType.VER_NT_WORKSTATION, 0⟩, 0, 0, [65, 66], [7], []⟩

/-- Counterexample for C2 as stated: an Information packet decodes
successfully from two different buffers whose 32-bit length fields read 5 and
99 respectively, yet the resulting `InformationPacket` values are identical —
the length field's value is not retained in the packet record. -/
theorem information_length_field_not_retained :
    infoLenFieldA ≠ infoLenFieldB ∧
    InformationPacket.from_reader infoLenFieldA 0 =
      DRes.ok (infoLenFieldPacket, 71) ∧
    InformationPacket.from_reader infoLenFieldB 0 =
      DRes.ok (infoLenFieldPacket, 71) := by
  refine ⟨by decide, by decide, by decide⟩

/-- Claim C2 (amended): the 32-bit length field between the reserved zero
fields and the hash is read — its absence makes the decode fail — but its
value is discarded: whenever two buffers of equal length reach the length
field in the same state (same parsed prefix, same position `p`) and agree on
all bytes after the field (from position `p + 4` on), `Information` decoding
returns identical results, whatever the four bytes of the field itself are. -/
theorem information_length_field_discarded (b1 b2 : List Nat) (p0 : Nat)
    (x : PacketHeader × Nat × Nat) (p : Nat)
    (h1 : infoFirstStage b1 p0 = .ok (x, p))
    (h2 : infoFirstStage b2 p0 = .ok (x, p))
    (hlen : b1.length = b2.length)
    (hsuf : b1.drop (p + 4) = b2.drop (p + 4)) :
    InformationPacket.from_reader b1 p0 =
      InformationPacket.from_reader b2 p0 := by
  unfold InformationPacket.from_reader
  rw [h1, h2]
  simp only
  rw [read_u32_eq b1 p, read_u32_eq b2 p]
  by_cases hc : 4 ≤ b2.length - p
  · rw [if_pos (by omega), if_pos hc]
    simp only
    exact infoTail_congr hsuf x
  · rw [if_neg (by omega), if_neg hc]

/-- Witness for C2's amended theorem at the concrete counterexample pair:
both buffers reach the length field at position 50 with the same parsed
prefix and agree beyond position 54, so the decode results coincide. -/
theorem information_length_field_discarded_witness :
    InformationPacket.from_reader infoLenFieldA 0 =
      InformationPacket.from_reader infoLenFieldB 0 :=
  information_length_field_discarded infoLenFieldA infoLenFieldB 0
    ⟨⟨[], [], [], 0, 0, false, false, false, 0, 0,
      ProductType.VER_NT_WORKSTATION, 0⟩, 0, 0⟩ 50
    (by decide) (by decide) (by decide) (by decide)
